import Mathlib

/-!
Shallow embedding of `arc_logger_monitor.py` (ArcSight Logger PRTG sensor).

Python strings are modelled as lists of Unicode code points (`List Nat`);
the built-in string operations the script uses (`lower`, `strip`,
`replace('"','')`, `split(',')`, f-string joins, `int(...)`) are modelled
below on that representation.  The ASCII fragment of `lower`/`strip` is
modelled, which covers every string the script manipulates.

Network effects are modelled by explicit environments: the transport
`post` is a function of the HTTP status code and body of the appliance's
response, and `create_logger_search` is a function of a scripted sequence
of poll responses plus the appliance's result set.
-/

/-- Python strings as lists of code points. -/
abbrev PyStr := List Nat

/-- Code point of the comma separator used by the script. -/
def commaChar : Nat := 44

/-- Code point of the double-quote character removed by `normalize_devices`. -/
def quoteChar : Nat := 34

/-- Code point of the digit `0` appended to silent devices. -/
def zeroChar : Nat := 48

/-- ASCII whitespace, as stripped by Python `str.strip()` (ASCII fragment). -/
def isPySpace (n : Nat) : Bool :=
  n == 32 || n == 9 || n == 10 || n == 13 || n == 11 || n == 12

/-- One character of Python `str.lower()` (ASCII fragment). -/
def lowerChar (n : Nat) : Nat :=
  if 65 ≤ n ∧ n ≤ 90 then n + 32 else n

/-- Python `s.lower()`. -/
def pyLower (s : PyStr) : PyStr := s.map lowerChar

/-- Python `s.strip()`: drop whitespace from the front, then from the back. -/
def pyStrip (s : PyStr) : PyStr :=
  List.rdropWhile isPySpace (List.dropWhile isPySpace s)

/-- Python `s.split(',')`. -/
def splitc (s : PyStr) : List PyStr := s.splitOn commaChar

/-- Joining a list of fields with `','`, as the script's f-strings and
`"...".format(...)` calls do. -/
def joinc (ps : List PyStr) : PyStr := List.intercalate [commaChar] ps

/-- Is this code point an ASCII decimal digit? -/
def isDigitChar (n : Nat) : Bool := decide (48 ≤ n ∧ n ≤ 57)

/-- Value of a string of decimal digits. -/
def digitsToNat (s : PyStr) : Nat := s.foldl (fun a n => a * 10 + (n - 48)) 0

/-- Python `int(s)` on a string: optional surrounding whitespace, optional
sign, then one or more decimal digits; `none` models `ValueError`. -/
def pyInt (s : PyStr) : Option Int :=
  let t := pyStrip s
  if t ≠ [] ∧ t.all isDigitChar then some (digitsToNat t)
  else
    match t with
    | 45 :: rest =>
      if rest ≠ [] ∧ rest.all isDigitChar then some (-(digitsToNat rest : Int))
      else none
    | 43 :: rest =>
      if rest ≠ [] ∧ rest.all isDigitChar then some ((digitsToNat rest : Int))
      else none
    | _ => none

/-- Result of the transport `post` (lines 12-44).  `parsedJson` is the
HTTP-200-with-body branch (`json.loads(response.text)`), `rawText` the
other non-error branch (e.g. HTTP 204), and `httpError` the value returned
from the `except requests.exceptions.HTTPError` handler, which carries the
offending response's status and raw body. -/
inductive PostResult
  | parsedJson (body : PyStr)
  | rawText (body : PyStr)
  | httpError (status : Nat) (body : PyStr)
deriving DecidableEq

/-- The transport `post` as a function of the appliance's HTTP response.
`requests.Response.raise_for_status()` raises exactly for status codes in
`[400, 600)`; the handler prints the body and the error and returns the
error object (which carries the response, hence status and body). -/
def post (status : Nat) (body : PyStr) : PostResult :=
  if 400 ≤ status ∧ status < 600 then .httpError status body
  else if status = 200 ∧ body ≠ [] then .parsedJson body
  else .rawText body

/-- Classification of one `status` response's `['status']` field, as
compared by the poll loop: `complete` and `error` are terminal, every
other string is non-terminal. -/
inductive PollStatus
  | complete
  | error
  | nonterminal
deriving DecidableEq

/-- One scripted outcome of a `status(...)` call: `ok s` is a parsed JSON
response whose `status` field classifies as `s`; `raise` models `status`
returning a transport error object, so that subscripting it with
`['status']` raises. -/
inductive PollResp
  | ok (s : PollStatus)
  | raise
deriving DecidableEq

/-- How the poll loop of `create_logger_search` (lines 349-357) ends:
`completed` via `break`, `errored` via `exit(1)`, `raised` via an uncaught
exception, `exhausted` when the script of responses runs out (the real
loop would keep polling; theorems only concern scripts that contain a
terminal response). -/
inductive PollOutcome
  | completed
  | errored
  | raised
  | exhausted
deriving DecidableEq

/-- The poll loop of `create_logger_search` (lines 349-357): reads statuses
until `complete` (break) or `error` (exit) or a raise; each non-terminal
response is followed by `time.sleep(5)`.  Returns the outcome and the
number of 5-second sleeps executed. -/
def pollLoop : List PollResp → PollOutcome × Nat
  | [] => (.exhausted, 0)
  | .raise :: _ => (.raised, 0)
  | .ok .complete :: _ => (.completed, 0)
  | .ok .error :: _ => (.errored, 0)
  | .ok .nonterminal :: rest =>
    let r := pollLoop rest
    (r.1, r.2 + 1)

/-- The pagination loop of `create_logger_search` (lines 359-367): starting
at `offset = 0`, while `offset < hit_count` request a page of `len` rows at
`offset` from `chart_data`, advance `offset` by `len`, and append the
returned rows.  The appliance is modelled as serving, for a request at
`offset` with page size `len`, the slice `(full.drop offset).take len` of
its full ordered result set.  Returns the list of requested offsets in
request order together with the concatenated rows. -/
def fetchLoop (full : List (List PyStr)) (hit len offset : Nat) :
    List Nat × List (List PyStr) :=
  if _h : offset < hit ∧ 0 < len then
    let tmp := (full.drop offset).take len
    let rest := fetchLoop full hit len (offset + len)
    (offset :: rest.1, tmp ++ rest.2)
  else ([], [])
termination_by hit - offset
decreasing_by omega

/-- Counts of the cleanup and sleep side effects of one run of
`create_logger_search`. -/
structure RunTrace where
  closes : Nat
  logouts : Nat
  sleeps : Nat
deriving DecidableEq

/-- How a run of `create_logger_search` ends: normal return of the
combined result list, `exit(code)`, an uncaught exception from polling, or
(model artifact) the poll script being exhausted. -/
inductive RunOutcome
  | finished (rows : List (List PyStr))
  | exited (code : Nat)
  | raised
  | divergent
deriving DecidableEq

/-- Environment of one run of `create_logger_search`: whether the login
response contains the `"log.loginResponse"` envelope, the scripted poll
responses, the `hit` count reported by the terminal status response, and
the appliance's full ordered result set served by `chart_data`. -/
structure LoggerEnv where
  loginEnvelope : Bool
  statuses : List PollResp
  hit : Nat
  results : List (List PyStr)

/-- `create_logger_search` (lines 318-374) as a function of its
environment.  On a missing login envelope it calls `exit(1)`.  Otherwise
the search is submitted and the poll loop runs; on `break` (complete) the
pagination loop fetches pages of 25 rows, then `close` and `logout` are
each called once and the combined list is returned.  On an `error` status
the code calls `exit(1)` immediately; on a raise the exception propagates;
in both of those cases neither `close` nor `logout` is reached. -/
def create_logger_search (env : LoggerEnv) : RunOutcome × RunTrace :=
  if env.loginEnvelope = false then (.exited 1, ⟨0, 0, 0⟩)
  else
    match pollLoop env.statuses with
    | (.completed, n) =>
      (.finished (fetchLoop env.results env.hit 25 0).2, ⟨1, 1, n⟩)
    | (.errored, n) => (.exited 1, ⟨0, 0, n⟩)
    | (.raised, n) => (.raised, ⟨0, 0, n⟩)
    | (.exhausted, n) => (.divergent, ⟨0, 0, n⟩)

/-- Accumulator pass of `calculate_total_event_count` (lines 377-382):
`total_count += int(result[4])` over the rows; `none` models the Python
exception raised by a missing index 4 or an unparsable count. -/
def calcAux (acc : Int) : List (List PyStr) → Option Int
  | [] => some acc
  | r :: rest =>
    match r[4]? with
    | none => none
    | some s =>
      match pyInt s with
      | none => none
      | some i => calcAux (acc + i) rest

/-- `calculate_total_event_count` (lines 377-382). -/
def calculate_total_event_count (results : List (List PyStr)) : Option Int :=
  calcAux 0 results

/-- `test_device` (lines 385-396): linear scan for an exactly equal key. -/
def test_device (device : PyStr) : List PyStr → Bool
  | [] => false
  | r :: rest => if device = r then true else test_device device rest

/-- The key a row contributes in `get_device_event_count`: the first four
comma-separated fields re-joined with commas
(`f"{dummy[0]},{dummy[1]},{dummy[2]},{dummy[3]}"`). -/
def rowKey (r : PyStr) : PyStr := joinc ((splitc r).take 4)

/-- A Python value that is either a string or an integer, as returned by
`get_device_event_count`. -/
inductive PyVal
  | vstr (s : PyStr)
  | vint (z : Int)
deriving DecidableEq

/-- `get_device_event_count` (lines 399-408): scan the rows-with-count;
split each on `','`, read `dummy[4]` (a `none` result models the
`IndexError` on a row with fewer than five fields), compare the re-joined
first four fields with the key; on the first match return the count (a
string); if no row matches return the integer `0`. -/
def get_device_event_count (device : PyStr) : List PyStr → Option PyVal
  | [] => some (.vint 0)
  | r :: rest =>
    match (splitc r)[4]? with
    | none => none
    | some count =>
      if rowKey r = device then some (.vstr count)
      else get_device_event_count device rest

/-- Field normalization used by `normalize_result` (lines 411-426):
`str(x).lower().strip()`. -/
def normField (s : PyStr) : PyStr := pyStrip (pyLower s)

/-- The pair of lists built by `normalize_result` (returned there as a
dict with keys `normalized_results` and `normalized_results_with_count`). -/
structure NormalizedResults where
  normalized_results : List PyStr
  normalized_results_with_count : List PyStr
deriving DecidableEq

/-- `normalize_result` (lines 411-426): for each row, lower-case and trim
the five fields and join the first four (resp. all five) with commas.
Indexing `result[0]`..`result[4]` is modelled with a default for rows
shorter than five fields (where Python would raise). -/
def normalize_result (results : List (List PyStr)) : NormalizedResults :=
  { normalized_results := results.map (fun r =>
      joinc [normField (r.getD 0 []), normField (r.getD 1 []),
             normField (r.getD 2 []), normField (r.getD 3 [])]),
    normalized_results_with_count := results.map (fun r =>
      joinc [normField (r.getD 0 []), normField (r.getD 1 []),
             normField (r.getD 2 []), normField (r.getD 3 []),
             normField (r.getD 4 [])]) }

/-- Entry normalization of `normalize_devices` (lines 442-453):
`device.replace('"', '')` then `device.strip().lower()`. -/
def normDevice (s : PyStr) : PyStr :=
  pyLower (pyStrip (s.filter (fun c => c != quoteChar)))

/-- `normalize_devices` (lines 442-453): normalize each entry and keep it
only if the normalized form is non-empty. -/
def normalize_devices : List PyStr → List PyStr
  | [] => []
  | d :: rest =>
    let d1 := normDevice d
    if d1 ≠ [] then d1 :: normalize_devices rest else normalize_devices rest

/-- The reconciliation loop of the main script (lines 535-541): each
inventory key is appended to `log_devices` when `test_device` finds it
among the result keys, and to `no_log_devices` otherwise.  Returns
`(log_devices, no_log_devices)` in iteration order. -/
def partitionDevices (results : List PyStr) : List PyStr → List PyStr × List PyStr
  | [] => ([], [])
  | d :: rest =>
    let p := partitionDevices results rest
    if test_device d results then (d :: p.1, p.2) else (p.1, d :: p.2)

/-- Lines 550-554 of the main script: each silent device is emitted as
`f"{device},0"`. -/
def noLogWithCount (noLog : List PyStr) : List PyStr :=
  noLog.map (fun d => d ++ [commaChar, zeroChar])

/-! ## Theorems -/

/-- C2: for every HTTP response with a 4xx or 5xx status, `post` returns
the error branch carrying the raw body and status, and never one of the
two success shapes; no error response is silently swallowed. -/
theorem C2_post_http_error (status : Nat) (body : PyStr)
    (h4 : 400 ≤ status) (h6 : status < 600) :
    post status body = PostResult.httpError status body ∧
      (∀ b, post status body ≠ PostResult.parsedJson b) ∧
      (∀ b, post status body ≠ PostResult.rawText b) := by
  have hp : post status body = PostResult.httpError status body := by
    unfold post
    rw [if_pos ⟨h4, h6⟩]
  refine ⟨hp, fun b hb => ?_, fun b hb => ?_⟩
  · rw [hp] at hb
    exact PostResult.noConfusion hb
  · rw [hp] at hb
    exact PostResult.noConfusion hb

/-- Witness for C2 at the concrete response `404` with body `"x"`. -/
theorem C2_post_http_error_witness :
    post 404 [120] = PostResult.httpError 404 [120] ∧
      post 404 [120] ≠ PostResult.parsedJson [120] :=
  ⟨(C2_post_http_error 404 [120] (by decide) (by decide)).1,
   (C2_post_http_error 404 [120] (by decide) (by decide)).2.1 [120]⟩

/-- C4: polling `[running, running, complete]` does exactly two 5-second
sleeps and ends completed; an `error` response after any run of
non-terminal responses ends the loop at that response with no further
sleep (the sleep count equals the number of preceding non-terminal
responses), whatever follows it. -/
theorem C4_poll_loop :
    pollLoop [PollResp.ok PollStatus.nonterminal, PollResp.ok PollStatus.nonterminal,
        PollResp.ok PollStatus.complete] = (PollOutcome.completed, 2) ∧
    ∀ pre rest, (∀ x ∈ pre, x = PollResp.ok PollStatus.nonterminal) →
      pollLoop (pre ++ PollResp.ok PollStatus.error :: rest)
        = (PollOutcome.errored, pre.length) := by
  refine ⟨rfl, ?_⟩
  intro pre rest hpre
  induction pre with
  | nil => rfl
  | cons a t ih =>
    have ha : a = PollResp.ok PollStatus.nonterminal := hpre a (List.mem_cons_self ..)
    subst ha
    have ht := ih (fun x hx => hpre x (List.mem_cons_of_mem _ hx))
    rw [List.cons_append]
    show ((pollLoop (t ++ PollResp.ok PollStatus.error :: rest)).1,
        (pollLoop (t ++ PollResp.ok PollStatus.error :: rest)).2 + 1)
      = (PollOutcome.errored, t.length + 1)
    rw [ht]

/-- Witness for C4: one non-terminal response then `error` gives outcome
`errored` after exactly one sleep. -/
theorem C4_poll_loop_witness :
    pollLoop [PollResp.ok PollStatus.nonterminal, PollResp.ok PollStatus.error]
      = (PollOutcome.errored, 1) :=
  C4_poll_loop.2 [PollResp.ok PollStatus.nonterminal] [] (by decide)

/-- Unfolding of `calcAux` when every row has a parsable count at index 4. -/
theorem calcAux_eq (results : List (List PyStr))
    (h : ∀ r ∈ results, ((r[4]?).bind pyInt).isSome) (acc : Int) :
    calcAux acc results
      = some (acc + (results.map (fun r => ((r[4]?).bind pyInt).getD 0)).sum) := by
  induction results generalizing acc with
  | nil => simp [calcAux]
  | cons r rest ih =>
    have hr := h r (List.mem_cons_self ..)
    obtain ⟨s, hs⟩ : ∃ s, r[4]? = some s := by
      cases hg : r[4]? with
      | none => rw [hg] at hr; simp at hr
      | some s => exact ⟨s, rfl⟩
    have hr2 : (pyInt s).isSome = true := by
      rw [hs] at hr
      exact hr
    obtain ⟨i, hi⟩ := Option.isSome_iff_exists.mp hr2
    have ht := ih (fun x hx => h x (List.mem_cons_of_mem _ hx)) (acc + i)
    have hgd : ((r[4]?).bind pyInt).getD 0 = i := by
      rw [hs]
      show (pyInt s).getD 0 = i
      rw [hi]
      rfl
    have hl : calcAux acc (r :: rest) = calcAux (acc + i) rest := by
      simp only [calcAux, hs, hi]
    rw [hl, ht]
    simp only [List.map_cons, List.sum_cons]
    rw [hgd, add_assoc]

/-- C5: whenever every fetched row has a count field at index 4 that
parses as an integer, `calculate_total_event_count` returns the sum of
those integer values over all rows; the function takes only the fetched
rows, so the total is independent of any inventory matching or join. -/
theorem C5_total_event_count (results : List (List PyStr))
    (h : ∀ r ∈ results, ((r[4]?).bind pyInt).isSome) :
    calculate_total_event_count results
      = some ((results.map (fun r => ((r[4]?).bind pyInt).getD 0)).sum) := by
  unfold calculate_total_event_count
  rw [calcAux_eq results h 0, zero_add]

/-- Witness for C5: two rows with counts `"55"` and `"7"` total `62`. -/
theorem C5_total_event_count_witness :
    calculate_total_event_count
        [[[97], [98], [99], [100], [53, 53]], [[97], [98], [99], [100], [55]]]
      = some 62 :=
  (C5_total_event_count
    [[[97], [98], [99], [100], [53, 53]], [[97], [98], [99], [100], [55]]]
    (by decide)).trans (by decide)

/-- C10: `normalize_devices` is the normalization of each entry followed
by dropping exactly the entries whose normalized form is empty, so it
never emits an empty key, and a blank line (for example a lone newline
from a trailing line break) produces no inventory key. -/
theorem C10_no_empty_keys (ds : List PyStr) :
    normalize_devices ds = (ds.map normDevice).filter (fun k => k != []) ∧
      ([] : PyStr) ∉ normalize_devices ds ∧
      normalize_devices [[10]] = [] := by
  have hfil : normalize_devices ds = (ds.map normDevice).filter (fun k => k != []) := by
    induction ds with
    | nil => rfl
    | cons d rest ih =>
      by_cases h : normDevice d = []
      · simp [normalize_devices, h, ih]
      · simp [normalize_devices, h, ih]
  refine ⟨hfil, ?_, by decide⟩
  intro hmem
  rw [hfil] at hmem
  have := List.of_mem_filter hmem
  simp at this

/-- `test_device` decides membership of a key among the result keys. -/
theorem test_device_iff_mem (d : PyStr) (rs : List PyStr) :
    test_device d rs = true ↔ d ∈ rs := by
  induction rs with
  | nil => simp [test_device]
  | cons r t ih =>
    by_cases h : d = r
    · simp [test_device, h]
    · simp [test_device, h, ih]

/-- The reconciliation loop filters the inventory by `test_device` and its
negation. -/
theorem partitionDevices_eq (results devices : List PyStr) :
    partitionDevices results devices
      = (devices.filter (fun x => test_device x results),
         devices.filter (fun x => !test_device x results)) := by
  induction devices with
  | nil => rfl
  | cons a t ih =>
    by_cases h : test_device a results = true
    · simp [partitionDevices, ih, h]
    · simp only [Bool.not_eq_true] at h
      simp [partitionDevices, ih, h]

/-- C6: every inventory key lands in exactly one of the two groups built
by the main loop; it lands in `log_devices` precisely when it occurs among
the result keys and in `no_log_devices` precisely when it does not, and
the silent list is emitted as exactly the silent keys with `",0"`
appended. -/
theorem C6_reconciliation_partition (results devices : List PyStr) (d : PyStr)
    (hd : d ∈ devices) :
    ((d ∈ (partitionDevices results devices).1 ∨
        d ∈ (partitionDevices results devices).2) ∧
      ¬(d ∈ (partitionDevices results devices).1 ∧
        d ∈ (partitionDevices results devices).2)) ∧
    (d ∈ (partitionDevices results devices).1 ↔ d ∈ results) ∧
    (d ∈ (partitionDevices results devices).2 ↔ d ∉ results) ∧
    (∀ e, e ∈ noLogWithCount (partitionDevices results devices).2 ↔
      ∃ s ∈ (partitionDevices results devices).2,
        e = s ++ [commaChar, zeroChar]) := by
  have hp := partitionDevices_eq results devices
  have hfst : d ∈ (partitionDevices results devices).1 ↔ d ∈ results := by
    rw [hp]
    simp [List.mem_filter, hd, test_device_iff_mem]
  have hsnd : d ∈ (partitionDevices results devices).2 ↔ d ∉ results := by
    rw [hp]
    constructor
    · intro hmem hres
      have hb := List.of_mem_filter hmem
      rw [(test_device_iff_mem d results).mpr hres] at hb
      simp at hb
    · intro hres
      refine List.mem_filter.mpr ⟨hd, ?_⟩
      cases hts : test_device d results
      · rfl
      · exact absurd ((test_device_iff_mem d results).mp hts) hres
  refine ⟨⟨?_, ?_⟩, hfst, hsnd, ?_⟩
  · by_cases h : d ∈ results
    · exact Or.inl (hfst.mpr h)
    · exact Or.inr (hsnd.mpr h)
  · rintro ⟨h1, h2⟩
    exact (hsnd.mp h2) (hfst.mp h1)
  · intro e
    simp only [noLogWithCount, List.mem_map]
    constructor
    · rintro ⟨s, hs, he⟩
      exact ⟨s, hs, he.symm⟩
    · rintro ⟨s, hs, he⟩
      exact ⟨s, hs, he.symm⟩

/-- Witness for C6 at inventory `["a"]` and result keys `["a"]`. -/
theorem C6_reconciliation_partition_witness :
    ([97] ∈ (partitionDevices ([[97]] : List PyStr) [[97]]).1 ↔
      ([97] : PyStr) ∈ ([[97]] : List PyStr)) :=
  (C6_reconciliation_partition [[97]] [[97]] [97] (by decide)).2.1

/-- C7: when the rows are a block of non-matching well-formed rows, then a
row whose first four comma-separated fields re-join to exactly the key,
then anything at all, `get_device_event_count` returns that first matching
row's fifth field as a string; all later rows, duplicates included, are
ignored. -/
theorem C7_first_match_wins (device : PyStr) (pre : List PyStr) (r : PyStr)
    (later : List PyStr) (c : PyStr)
    (hpre : ∀ x ∈ pre, 5 ≤ (splitc x).length ∧ rowKey x ≠ device)
    (hc : (splitc r)[4]? = some c) (hkey : rowKey r = device) :
    get_device_event_count device (pre ++ r :: later) = some (PyVal.vstr c) := by
  induction pre with
  | nil => simp [get_device_event_count, hc, hkey]
  | cons a t ih =>
    obtain ⟨hlen, hne⟩ := hpre a (List.mem_cons_self ..)
    obtain ⟨ca, hca⟩ : ∃ ca, (splitc a)[4]? = some ca := by
      have h4 : 4 < (splitc a).length := by omega
      exact ⟨(splitc a).get ⟨4, h4⟩, List.getElem?_eq_getElem h4⟩
    simp only [List.cons_append, get_device_event_count, hca]
    rw [if_neg hne]
    exact ih (fun x hx => hpre x (List.mem_cons_of_mem _ hx))

/-- Witness for C7: key `"a,b,c,d"` against rows `"a,b,c,d,9"` then a
duplicate `"a,b,c,d,8"`; the first count `"9"` is returned. -/
theorem C7_first_match_wins_witness :
    get_device_event_count [97, 44, 98, 44, 99, 44, 100]
        [[97, 44, 98, 44, 99, 44, 100, 44, 57],
         [97, 44, 98, 44, 99, 44, 100, 44, 56]]
      = some (PyVal.vstr [57]) :=
  C7_first_match_wins [97, 44, 98, 44, 99, 44, 100] []
    [97, 44, 98, 44, 99, 44, 100, 44, 57]
    [[97, 44, 98, 44, 99, 44, 100, 44, 56]] [57]
    (by decide) (by decide) (by decide)

/-- C9: over well-formed rows (at least five comma-separated fields),
`get_device_event_count` returns the integer `0` exactly when no row's
first four fields re-join to the key, and returns a string value whenever
a match exists, so the matched and unmatched results differ in type. -/
theorem C9_lookup_type_split (device : PyStr) (rows : List PyStr)
    (hw : ∀ x ∈ rows, 5 ≤ (splitc x).length) :
    (get_device_event_count device rows = some (PyVal.vint 0) ↔
      ∀ x ∈ rows, rowKey x ≠ device) ∧
    ((∃ x ∈ rows, rowKey x = device) →
      ∃ c, get_device_event_count device rows = some (PyVal.vstr c)) := by
  induction rows with
  | nil => simp [get_device_event_count]
  | cons a t ih =>
    obtain ⟨ca, hca⟩ : ∃ ca, (splitc a)[4]? = some ca := by
      have h4 : 4 < (splitc a).length := by
        have := hw a (List.mem_cons_self ..)
        omega
      exact ⟨(splitc a).get ⟨4, h4⟩, List.getElem?_eq_getElem h4⟩
    have iht := ih (fun x hx => hw x (List.mem_cons_of_mem _ hx))
    by_cases h : rowKey a = device
    · have hg : get_device_event_count device (a :: t) = some (PyVal.vstr ca) := by
        simp [get_device_event_count, hca, h]
      constructor
      · rw [hg]
        constructor
        · intro habs
          simp at habs
        · intro hall
          exact absurd h (hall a (List.mem_cons_self ..))
      · intro _
        exact ⟨ca, hg⟩
    · have hg : get_device_event_count device (a :: t)
          = get_device_event_count device t := by
        simp [get_device_event_count, hca, h]
      constructor
      · rw [hg, iht.1, List.forall_mem_cons]
        simp [h]
      · rintro ⟨x, hx, hxk⟩
        rcases List.mem_cons.mp hx with hxa | hxt
        · exact absurd (hxa ▸ hxk) h
        · obtain ⟨c, hcg⟩ := iht.2 ⟨x, hxt, hxk⟩
          exact ⟨c, hg.trans hcg⟩

/-- Witness for C9: key `"a"` does not match the row `"b,b,b,b,5"`, so the
lookup returns the integer `0`. -/
theorem C9_lookup_type_split_witness :
    get_device_event_count [97] [[98, 44, 98, 44, 98, 44, 98, 44, 53]]
      = some (PyVal.vint 0) :=
  (C9_lookup_type_split [97] [[98, 44, 98, 44, 98, 44, 98, 44, 53]]
    (by decide)).1.mpr (by decide)

/-- Unfolding of the pagination loop while `offset < hit_count`. -/
theorem fetchLoop_pos (full : List (List PyStr)) (hit len offset : Nat)
    (h : offset < hit) (hl : 0 < len) :
    fetchLoop full hit len offset
      = (offset :: (fetchLoop full hit len (offset + len)).1,
         (full.drop offset).take len ++ (fetchLoop full hit len (offset + len)).2) := by
  rw [fetchLoop]
  rw [dif_pos ⟨h, hl⟩]

/-- Unfolding of the pagination loop once `offset` reaches `hit_count`. -/
theorem fetchLoop_neg (full : List (List PyStr)) (hit len offset : Nat)
    (h : ¬(offset < hit ∧ 0 < len)) :
    fetchLoop full hit len offset = ([], []) := by
  rw [fetchLoop]
  rw [dif_neg h]

/-- Concatenating the fetched pages from any starting offset yields the
remaining part of the appliance's full result list, when the hit count is
that list's length. -/
theorem fetchLoop_rows (full : List (List PyStr)) (len : Nat) (hl : 0 < len) :
    ∀ offset, (fetchLoop full full.length len offset).2 = full.drop offset := by
  have H : ∀ d offset, full.length - offset ≤ d →
      (fetchLoop full full.length len offset).2 = full.drop offset := by
    intro d
    induction d with
    | zero =>
      intro offset hle
      have hge : full.length ≤ offset := by omega
      rw [fetchLoop_neg full _ len offset (fun hc => absurd hc.1 (by omega))]
      simp [List.drop_eq_nil_of_le hge]
    | succ d ih =>
      intro offset hle
      by_cases hlt : offset < full.length
      · rw [fetchLoop_pos full _ len offset hlt hl]
        have hrec := ih (offset + len) (by omega)
        show (full.drop offset).take len ++ (fetchLoop full full.length len (offset + len)).2
            = full.drop offset
        rw [hrec]
        have hdd : full.drop (offset + len) = (full.drop offset).drop len := by
          rw [List.drop_drop]
        rw [hdd, List.take_append_drop]
      · rw [fetchLoop_neg full _ len offset (fun hc => absurd hc.1 hlt)]
        have hge2 : full.length ≤ offset := by omega
        simp [List.drop_eq_nil_of_le hge2]
  exact fun offset => H (full.length - offset) offset le_rfl

/-- The offsets requested from any starting offset are exactly the values
`offset + k·len` below the hit count. -/
theorem fetchLoop_offsets_mem (full : List (List PyStr)) (hit len : Nat)
    (hl : 0 < len) :
    ∀ offset o, o ∈ (fetchLoop full hit len offset).1 ↔
      ((∃ k, o = offset + k * len) ∧ o < hit) := by
  have H : ∀ d offset, hit - offset ≤ d → ∀ o,
      (o ∈ (fetchLoop full hit len offset).1 ↔
        ((∃ k, o = offset + k * len) ∧ o < hit)) := by
    intro d
    induction d with
    | zero =>
      intro offset hle o
      rw [fetchLoop_neg full hit len offset (fun hc => absurd hc.1 (by omega))]
      simp only [List.not_mem_nil, false_iff]
      rintro ⟨⟨k, hk⟩, ho⟩
      omega
    | succ d ih =>
      intro offset hle o
      by_cases hlt : offset < hit
      · rw [fetchLoop_pos full hit len offset hlt hl]
        show o ∈ offset :: (fetchLoop full hit len (offset + len)).1 ↔ _
        rw [List.mem_cons, ih (offset + len) (by omega) o]
        constructor
        · rintro (rfl | ⟨⟨k, hk⟩, ho⟩)
          · exact ⟨⟨0, by omega⟩, hlt⟩
          · refine ⟨⟨k + 1, ?_⟩, ho⟩
            rw [hk]
            ring
        · rintro ⟨⟨k, hk⟩, ho⟩
          cases k with
          | zero =>
            left
            simpa using hk
          | succ k2 =>
            right
            refine ⟨⟨k2, ?_⟩, ho⟩
            rw [hk]
            ring
      · rw [fetchLoop_neg full hit len offset (fun hc => absurd hc.1 hlt)]
        simp only [List.not_mem_nil, false_iff]
        rintro ⟨⟨k, hk⟩, ho⟩
        omega
  exact fun offset o => H (hit - offset) offset le_rfl o

/-- The requested offsets are strictly increasing. -/
theorem fetchLoop_offsets_chain (full : List (List PyStr)) (hit len : Nat)
    (hl : 0 < len) :
    ∀ offset, List.Chain' (· < ·) (fetchLoop full hit len offset).1 := by
  have H : ∀ d offset, hit - offset ≤ d →
      List.Chain' (· < ·) (fetchLoop full hit len offset).1 := by
    intro d
    induction d with
    | zero =>
      intro offset hle
      rw [fetchLoop_neg full hit len offset (fun hc => absurd hc.1 (by omega))]
      exact List.chain'_nil
    | succ d ih =>
      intro offset hle
      by_cases hlt : offset < hit
      · rw [fetchLoop_pos full hit len offset hlt hl]
        show List.Chain' (· < ·) (offset :: (fetchLoop full hit len (offset + len)).1)
        rw [List.chain'_cons']
        refine ⟨?_, ih (offset + len) (by omega)⟩
        intro y hy
        by_cases h2 : offset + len < hit
        · rw [fetchLoop_pos full hit len (offset + len) h2 hl] at hy
          simp only [List.head?_cons, Option.mem_def, Option.some_inj] at hy
          omega
        · rw [fetchLoop_neg full hit len (offset + len) (fun hc => absurd hc.1 h2)] at hy
          simp at hy
      · rw [fetchLoop_neg full hit len offset (fun hc => absurd hc.1 hlt)]
        exact List.chain'_nil
  exact fun offset => H (hit - offset) offset le_rfl

/-- C3: for any hit count and positive page length, the pagination loop
requests exactly the offsets `0, len, 2·len, ...` below the hit count, in
strictly increasing order, and when the hit count equals the length of the
appliance's full ordered result list, the concatenation of the fetched
pages in request order is exactly that list: no duplicate and no gap. -/
theorem C3_pagination_roundtrip (hit len : Nat) (full : List (List PyStr))
    (hl : 0 < len) (hfull : full.length = hit) :
    (∀ o, o ∈ (fetchLoop full hit len 0).1 ↔ (len ∣ o ∧ o < hit)) ∧
    List.Chain' (· < ·) (fetchLoop full hit len 0).1 ∧
    (fetchLoop full hit len 0).2 = full := by
  subst hfull
  refine ⟨?_, fetchLoop_offsets_chain full _ len hl 0, ?_⟩
  · intro o
    rw [fetchLoop_offsets_mem full _ len hl 0 o]
    constructor
    · rintro ⟨⟨k, hk⟩, ho⟩
      refine ⟨⟨k, ?_⟩, ho⟩
      rw [hk]
      ring
    · rintro ⟨⟨k, hk⟩, ho⟩
      refine ⟨⟨k, ?_⟩, ho⟩
      rw [hk]
      ring
  · have h := fetchLoop_rows full len hl 0
    simpa using h

/-- Witness for C3 with `hit_count = 60` and `length = 25`: the offset
`25` is requested, and the sixty rows come back exactly once in order. -/
theorem C3_pagination_roundtrip_witness :
    (25 ∈ (fetchLoop (List.replicate 60 [[48]]) 60 25 0).1 ↔
      ((25 : Nat) ∣ 25 ∧ 25 < 60)) ∧
    (fetchLoop (List.replicate 60 [[48]]) 60 25 0).2 = List.replicate 60 [[48]] :=
  ⟨(C3_pagination_roundtrip 60 25 (List.replicate 60 [[48]]) (by decide)
      (by simp)).1 25,
   (C3_pagination_roundtrip 60 25 (List.replicate 60 [[48]]) (by decide)
      (by simp)).2.2⟩

/-- The ASCII lower-casing map is idempotent. -/
theorem lowerChar_idem (n : Nat) : lowerChar (lowerChar n) = lowerChar n := by
  simp only [lowerChar]
  split_ifs <;> omega

/-- Lower-casing does not change whether a code point is whitespace. -/
theorem isPySpace_lowerChar (n : Nat) : isPySpace (lowerChar n) = isPySpace n := by
  by_cases h : 65 ≤ n ∧ n ≤ 90
  · have h1 : isPySpace (n + 32) = false := by
      simp only [isPySpace, Bool.or_eq_false_iff, beq_eq_false_iff_ne, ne_eq]
      omega
    have h2 : isPySpace n = false := by
      simp only [isPySpace, Bool.or_eq_false_iff, beq_eq_false_iff_ne, ne_eq]
      omega
    rw [lowerChar, if_pos h, h1, h2]
  · rw [lowerChar, if_neg h]

/-- Only the double-quote maps to the double-quote under lower-casing. -/
theorem lowerChar_eq_quote (n : Nat) (h : lowerChar n = quoteChar) : n = quoteChar := by
  simp only [lowerChar, quoteChar] at h ⊢
  split_ifs at h <;> omega

/-- `pyLower` is idempotent. -/
theorem pyLower_idem (s : PyStr) : pyLower (pyLower s) = pyLower s := by
  induction s with
  | nil => rfl
  | cons a t ih =>
    show lowerChar (lowerChar a) :: pyLower (pyLower t) = lowerChar a :: pyLower t
    rw [lowerChar_idem, ih]

/-- Dropping leading whitespace fixes a string that was already stripped
on the left and then on the right. -/
theorem strip_fix_left (p : Nat → Bool) (l : List Nat) :
    List.dropWhile p (List.rdropWhile p (List.dropWhile p l))
      = List.rdropWhile p (List.dropWhile p l) := by
  rw [List.dropWhile_eq_self_iff]
  intro hl
  have hpre : List.rdropWhile p (List.dropWhile p l) <+: List.dropWhile p l :=
    List.rdropWhile_prefix p (List.dropWhile p l)
  have hlen : 0 < (List.dropWhile p l).length :=
    lt_of_lt_of_le hl hpre.length_le
  have hg : (List.rdropWhile p (List.dropWhile p l)).get ⟨0, hl⟩
      = (List.dropWhile p l).get ⟨0, hlen⟩ := by
    simp only [List.get_eq_getElem]
    exact hpre.getElem hl
  rw [hg]
  exact List.dropWhile_get_zero_not p l hlen

/-- `pyStrip` is idempotent. -/
theorem pyStrip_idem (s : PyStr) : pyStrip (pyStrip s) = pyStrip s := by
  unfold pyStrip
  rw [strip_fix_left]
  exact List.rdropWhile_idempotent isPySpace (List.dropWhile isPySpace s)

/-- `pyStrip` commutes with `pyLower`. -/
theorem pyStrip_pyLower (s : PyStr) : pyStrip (pyLower s) = pyLower (pyStrip s) := by
  have hps : isPySpace ∘ lowerChar = isPySpace :=
    funext isPySpace_lowerChar
  unfold pyStrip pyLower List.rdropWhile
  rw [List.dropWhile_map, hps, ← List.map_reverse, List.dropWhile_map, hps,
    ← List.map_reverse]

/-- Every code point of the stripped string occurs in the original. -/
theorem pyStrip_subset (s : PyStr) : ∀ a ∈ pyStrip s, a ∈ s := by
  intro a ha
  unfold pyStrip at ha
  have h1 := (List.rdropWhile_prefix isPySpace (List.dropWhile isPySpace s)).subset ha
  exact (List.dropWhile_suffix isPySpace).subset h1

/-- `normDevice` fixes its own output. -/
theorem normDevice_fix (s : PyStr) : normDevice (normDevice s) = normDevice s := by
  have hfq : (pyLower (pyStrip (List.filter (fun c => c != quoteChar) s))).filter
        (fun c => c != quoteChar)
      = pyLower (pyStrip (List.filter (fun c => c != quoteChar) s)) := by
    apply List.filter_eq_self.mpr
    intro a ha
    simp only [pyLower, List.mem_map] at ha
    obtain ⟨b, hb, hba⟩ := ha
    have hbs := pyStrip_subset _ b hb
    have hbq : (b != quoteChar) = true := (List.mem_filter.mp hbs).2
    simp only [bne_iff_ne, ne_eq] at hbq ⊢
    rw [← hba]
    intro hcon
    exact hbq (lowerChar_eq_quote b hcon)
  unfold normDevice
  rw [hfq, pyStrip_pyLower, pyStrip_idem, pyLower_idem]

/-- Every key emitted by `normalize_devices` is non-empty and fixed by the
entry normalization. -/
theorem normalize_devices_mem (ds : List PyStr) :
    ∀ d ∈ normalize_devices ds, normDevice d = d ∧ d ≠ [] := by
  induction ds with
  | nil =>
    intro d hd
    simp [normalize_devices] at hd
  | cons a t ih =>
    intro d hd
    by_cases h : normDevice a = []
    · simp only [normalize_devices, h] at hd
      rw [if_neg (by simp)] at hd
      exact ih d hd
    · simp only [normalize_devices] at hd
      rw [if_pos h] at hd
      rcases List.mem_cons.mp hd with rfl | hdt
      · exact ⟨normDevice_fix a, h⟩
      · exact ih d hdt

/-- `normalize_devices` fixes any list of non-empty normalized keys. -/
theorem normalize_devices_fix (l : List PyStr)
    (h : ∀ d ∈ l, normDevice d = d ∧ d ≠ []) : normalize_devices l = l := by
  induction l with
  | nil => rfl
  | cons a t ih =>
    obtain ⟨ha, hne⟩ := h a (List.mem_cons_self ..)
    simp only [normalize_devices, ha]
    rw [if_pos hne]
    rw [ih (fun d hd => h d (List.mem_cons_of_mem _ hd))]

/-- C8: normalization is idempotent.  Running `normalize_devices` on its
own output changes nothing, and for a result row whose five fields are
already fixed by the field normalization (trimmed and lower-cased),
`normalize_result` emits the keys built from the fields unchanged. -/
theorem C8_normalization_idempotent :
    (∀ ds, normalize_devices (normalize_devices ds) = normalize_devices ds) ∧
    (∀ f0 f1 f2 f3 f4 : PyStr, normField f0 = f0 → normField f1 = f1 →
      normField f2 = f2 → normField f3 = f3 → normField f4 = f4 →
      normalize_result [[f0, f1, f2, f3, f4]]
        = ⟨[joinc [f0, f1, f2, f3]], [joinc [f0, f1, f2, f3, f4]]⟩) := by
  constructor
  · intro ds
    exact normalize_devices_fix _ (normalize_devices_mem ds)
  · intro f0 f1 f2 f3 f4 h0 h1 h2 h3 h4
    simp [normalize_result, h0, h1, h2, h3, h4]

/-- Witness for C8 on the already-normalized row
`("a", "b", "c", "d", "5")`. -/
theorem C8_normalization_idempotent_witness :
    normalize_result [[[97], [98], [99], [100], [53]]]
      = ⟨[[97, 44, 98, 44, 99, 44, 100]], [[97, 44, 98, 44, 99, 44, 100, 44, 53]]⟩ :=
  (C8_normalization_idempotent.2 [97] [98] [99] [100] [53]
    (by decide) (by decide) (by decide) (by decide) (by decide)).trans (by decide)

/-- C1 (amended): once the search is submitted (login envelope present),
`close` and `logout` are each performed exactly once on every run whose
polling reaches `complete`; but on the path where polling observes the
terminal `error` state the process exits immediately with neither `close`
nor `logout`, and on the path where polling raises, the exception
propagates with neither `close` nor `logout`. -/
theorem C1_cleanup_per_path (env : LoggerEnv) (hlogin : env.loginEnvelope = true) :
    ((pollLoop env.statuses).1 = PollOutcome.completed →
      (create_logger_search env).2.closes = 1 ∧
      (create_logger_search env).2.logouts = 1) ∧
    ((pollLoop env.statuses).1 = PollOutcome.errored →
      (create_logger_search env).1 = RunOutcome.exited 1 ∧
      (create_logger_search env).2.closes = 0 ∧
      (create_logger_search env).2.logouts = 0) ∧
    ((pollLoop env.statuses).1 = PollOutcome.raised →
      (create_logger_search env).1 = RunOutcome.raised ∧
      (create_logger_search env).2.closes = 0 ∧
      (create_logger_search env).2.logouts = 0) := by
  have hnot : ¬(env.loginEnvelope = false) := by
    rw [hlogin]
    simp
  unfold create_logger_search
  rw [if_neg hnot]
  rcases hpoll : pollLoop env.statuses with ⟨outcome, n⟩
  cases outcome <;> simp [hpoll]

/-- Witness for C1's amended statement: login OK and statuses
`[complete]` give exactly one `close` and one `logout`. -/
theorem C1_cleanup_per_path_witness :
    (create_logger_search ⟨true, [PollResp.ok PollStatus.complete], 0, []⟩).2.closes = 1 ∧
    (create_logger_search ⟨true, [PollResp.ok PollStatus.complete], 0, []⟩).2.logouts = 1 :=
  (C1_cleanup_per_path ⟨true, [PollResp.ok PollStatus.complete], 0, []⟩ rfl).1 rfl

/-- Counterexample to C1 as stated: with the login envelope present (a
search is submitted) and a single status response of `error`, the run ends
by `exit(1)` with zero `close` calls and zero `logout` calls, so cleanup
is not performed exactly once on every outcome path. -/
theorem C1_counterexample :
    (create_logger_search ⟨true, [PollResp.ok PollStatus.error], 0, []⟩).1
        = RunOutcome.exited 1 ∧
    (create_logger_search ⟨true, [PollResp.ok PollStatus.error], 0, []⟩).2.closes = 0 ∧
    (create_logger_search ⟨true, [PollResp.ok PollStatus.error], 0, []⟩).2.logouts = 0 := by
  refine ⟨rfl, rfl, rfl⟩
